import Mathlib

/-!
# Verification of the `imylu` Gaussian Naive Bayes classifier

Shallow embedding of `src/imylu/probability_model/gaussian_nb.py`.

The Python code is embedded as follows:

* Python lists become Lean `List`s; the numeric `float` values of the
  statistics pipeline are modelled as exact arithmetic, generically over a
  `Field` (instantiated at `ℚ` for the executable estimation claims and at
  `ℝ` for the density/prediction pipeline, which uses `sqrt`, `exp`, `pi`).
* Fallible Python operations (division by zero raises `ZeroDivisionError`,
  `math.sqrt` of a negative raises `ValueError`, attribute access on the
  unfitted `None` fields raises `TypeError`, `max` of an empty sequence
  raises `ValueError`) are modelled in `Option`: `none` is "the call raised".
  Python's left-to-right evaluation with fail-fast propagation is modelled
  by explicit sequencing recursions (`mapME`, `foldlME`).
* `Counter(y)` is modelled as an association list from the distinct labels
  of `y` (in first-occurrence order, as `collections.Counter` preserves
  insertion order) to their multiplicities.
* Python's `zip` truncates to the shortest argument; Lean's `List.zip` does
  the same, so `zip` is mapped to `List.zip`.
* `feature_sum[y[i]] += X[i][j]` — indexed read-modify-write on a Python
  list — becomes `bump`, i.e. `List.set` at the index with the incremented
  value.  The claims about `_get_avg_var` carry the hypothesis that every
  label is `< n_class`, matching the region where the Python indexing does
  not raise `IndexError`.
-/

namespace GaussianNBSpec

/-! ## Option-sequencing helpers (Python evaluation order, fail-fast) -/

/-- Evaluate `f` on each element left to right; the first failure aborts the
whole computation (Python list comprehension over fallible expressions). -/
def mapME {α β : Type} (f : α → Option β) : List α → Option (List β)
  | [] => some []
  | x :: xs => do
    let y ← f x
    let ys ← mapME f xs
    pure (y :: ys)

/-- Fold left to right with a fallible step; the first failure aborts
(Python `for` loop whose body may raise). -/
def foldlME {α β : Type} (f : β → α → Option β) (b : β) : List α → Option β
  | [] => some b
  | x :: xs => do
    let b' ← f b x
    foldlME f b' xs

/-- Python float division: `a / b` raises `ZeroDivisionError` when `b == 0`. -/
def divE {α : Type} [Field α] [DecidableEq α] (a b : α) : Option α :=
  if b = 0 then none else some (a / b)

/-! ## The moment estimator `_get_avg_var` (generic over a field) -/

section Moments

variable {α : Type} [Field α]

/-- `l[k] += v` on a Python list, i.e. `feature_sum[y[i]] += X[i][j]`.
(Out-of-range `k` raises `IndexError` in Python; `List.set` is then a no-op,
so all theorems about the moment estimator assume every label is in range.) -/
def bump (l : List α) (k : ℕ) (v : α) : List α :=
  l.set k (l.getD k 0 + v)

/-- The inner `for i in range(n)` loop of `_get_avg_var` for one column `j`:
accumulates `feature_sum` and `feature_sqr_sum`, both initialised to
`[0] * n_class`.  Iterating `i` over `range(len(X))` reading `X[i]` and
`y[i]` is iterating over `X.zip y` (for `len(y) = len(X)`). -/
def featureSums (X : List (List α)) (y : List ℕ) (n_class j : ℕ) :
    List α × List α :=
  (X.zip y).foldl
    (fun s p => (bump s.1 p.2 (p.1.getD j 0), bump s.2 p.2 ((p.1.getD j 0) ^ 2)))
    (List.replicate n_class 0, List.replicate n_class 0)

/-- `feature_avg = [x / n for x in feature_sum]` with `n = len(X)`. -/
def featureAvg (X : List (List α)) (y : List ℕ) (n_class j : ℕ) : List α :=
  (featureSums X y n_class j).1.map (· / (X.length : α))

/-- `feature_var = [x / n - y ** 2 for x, y in zip(feature_sqr_sum, feature_avg)]`. -/
def featureVar (X : List (List α)) (y : List ℕ) (n_class j : ℕ) : List α :=
  ((featureSums X y n_class j).2.zip (featureAvg X y n_class j)).map
    (fun p => p.1 / (X.length : α) - p.2 ^ 2)

/-- `_get_avg_var(X, y, n_class)`: for each column `j < m = len(X[0])`,
append `feature_avg` to `avgs` and `feature_var` to `variances`.
(Python raises `IndexError` on `X[0]` for empty `X`; the claims all assume
`X ≠ []`, where `X.headD []` is exactly `X[0]`.) -/
def _get_avg_var (X : List (List α)) (y : List ℕ) (n_class : ℕ) :
    List (List α) × List (List α) :=
  ((List.range (X.headD []).length).map (featureAvg X y n_class),
   (List.range (X.headD []).length).map (featureVar X y n_class))

end Moments

/-! ## The prior estimator `_get_prior` -/

/-- The distinct elements of a list in first-occurrence order: the key set
of `collections.Counter(y)` (which preserves insertion order). -/
def distincts : List ℕ → List ℕ
  | [] => []
  | x :: xs => x :: (distincts xs).filter (fun k => k ≠ x)

/-- `_get_prior(y) = Counter(y)`: an association list mapping each distinct
label of `y` to its number of occurrences. -/
def _get_prior (y : List ℕ) : List (ℕ × ℕ) :=
  (distincts y).map (fun c => (c, y.count c))

/-! ## The density evaluator `_get_posterior` and the prediction pipeline

These use `math.sqrt`, `math.exp`, `math.pi`, so they live over `ℝ`. -/

/-- `math.sqrt(x)`: raises `ValueError` on a negative argument. -/
noncomputable def sqrtE (x : ℝ) : Option ℝ :=
  if x < 0 then none else some (Real.sqrt x)

/-- `_get_posterior(xij, avg, variance)`:
`1 / sqrt(2 * pi * variance) * exp(-(xij - avg)**2 / (2 * variance))`
with Python's failure modes: `sqrt` of a negative raises, division by zero
raises (so `variance = 0` fails at `1 / sqrt(0)`). -/
noncomputable def _get_posterior (xij avg variance : ℝ) : Option ℝ := do
  let s ← sqrtE (2 * Real.pi * variance)
  let c ← divE 1 s
  let e ← divE (-(xij - avg) ^ 2) (2 * variance)
  pure (c * Real.exp e)

/-- The value `_get_posterior` returns in the non-raising case: the Gaussian
probability density with mean `avg` and variance `v` at `x`. -/
noncomputable def gaussPdf (x avg v : ℝ) : ℝ :=
  1 / Real.sqrt (2 * Real.pi * v) * Real.exp (-(x - avg) ^ 2 / (2 * v))

/-- One iteration of the `for xij, avgs, variances in zip(...)` loop of
`_predict_prob`: `probs = [prob * self._get_posterior(xij, avg, var)
for prob, avg, var in zip(probs, avgs, variances)]`. -/
noncomputable def jointStep (probs : List ℝ) (t : ℝ × (List ℝ × List ℝ)) :
    Option (List ℝ) :=
  mapME (fun q => (_get_posterior t.1 q.2.1 q.2.2).map (q.1 * ·))
    (probs.zip (t.2.1.zip t.2.2))

/-- `_predict_prob(row)` given the fitted `n_class`, `avgs`, `variances`:
start from `[1] * n_class`, run the joint-probability loop over
`zip(row, avgs, variances)`, then `[prob / probs_sum for prob in probs]`
(each division raises if `probs_sum == 0`, but an empty comprehension
performs no division at all). -/
noncomputable def _predict_prob (n_class : ℕ) (avgs variances : List (List ℝ))
    (row : List ℝ) : Option (List ℝ) := do
  let probs ← foldlME jointStep (List.replicate n_class 1)
    (row.zip (avgs.zip variances))
  mapME (fun p => divE p probs.sum) probs

/-- The classifier's mutable state: `__init__` sets every attribute to
`None` (`none`); `fit` sets all four. -/
structure GaussianNB where
  prior : Option (List (ℕ × ℕ))
  avgs : Option (List (List ℝ))
  variances : Option (List (List ℝ))
  n_class : Option ℕ

/-- `GaussianNB()`: the freshly constructed, unfitted classifier. -/
def GaussianNB.init : GaussianNB := ⟨none, none, none, none⟩

/-- `fit(X, y)`: store `prior = _get_prior(y)`, `n_class = len(prior)`,
`avgs, variances = _get_avg_var(X, y, n_class)`. -/
noncomputable def fit (X : List (List ℝ)) (y : List ℕ) : GaussianNB :=
  let prior := _get_prior y
  let n_class := prior.length
  let av := _get_avg_var X y n_class
  ⟨some prior, some av.1, some av.2, some n_class⟩

/-- `self._predict_prob(row)` as a method: reading any attribute of an
unfitted classifier (`None`) raises `TypeError`, modelled by the
`Option` binds. -/
noncomputable def GaussianNB.predictProbRow (M : GaussianNB) (row : List ℝ) :
    Option (List ℝ) := do
  let nc ← M.n_class
  let avgs ← M.avgs
  let vss ← M.variances
  _predict_prob nc avgs vss row

/-- `predict_prob(X) = [self._predict_prob(row) for row in X]`. -/
noncomputable def GaussianNB.predict_prob (M : GaussianNB)
    (X : List (List ℝ)) : Option (List (List ℝ)) :=
  mapME M.predictProbRow X

/-- Python's `max(l, key=lambda x: x[1])` on a list of (index, value) pairs:
raises `ValueError` on an empty sequence, otherwise folds keeping the
incumbent on ties (so the first maximum wins). -/
noncomputable def maxByVal : List (ℕ × ℝ) → Option (ℕ × ℝ)
  | [] => none
  | x :: xs => some (xs.foldl (fun b p => if b.2 < p.2 then p else b) x)

/-- `predict(X, threshold=0.5)`:
`[max(enumerate(y), key=lambda x: x[1])[0] for y in self.predict_prob(X)]`.
The `threshold` parameter is accepted and never read. -/
noncomputable def GaussianNB.predict (M : GaussianNB) (X : List (List ℝ))
    (threshold : ℝ) : Option (List ℕ) := do
  let P ← M.predict_prob X
  mapME (fun ps => (maxByVal ps.enum).map Prod.fst) P

/-- The class index `predict` produces for one posterior row `ps`:
the first component of `max(enumerate(ps), key=...)` (and `0` in the
empty case, where Python's `max` raises instead). -/
noncomputable def argmaxIdx (ps : List ℝ) : ℕ :=
  ((maxByVal ps.enum).map Prod.fst).getD 0

/-! ## Generic list helper lemmas -/

lemma getD_map_lt {γ δ : Type} (f : γ → δ) (l : List γ) {c : ℕ} (hc : c < l.length)
    (d : δ) (d' : γ) : (l.map f).getD c d = f (l.getD c d') := by
  rw [List.getD_eq_getElem _ _ (by simpa using hc), List.getD_eq_getElem _ _ hc,
    List.getElem_map]

lemma getD_replicate_lt {γ : Type} (x d : γ) {n c : ℕ} (hc : c < n) :
    (List.replicate n x).getD c d = x := by
  rw [List.getD_eq_getElem _ _ (by simpa using hc)]
  exact List.getElem_replicate ..

lemma getD_mem_of_lt {γ : Type} (l : List γ) {c : ℕ} (hc : c < l.length) (d : γ) :
    l.getD c d ∈ l := by
  rw [List.getD_eq_getElem _ _ hc]
  exact List.getElem_mem hc

lemma eq_range_map_getD {γ : Type} (l : List γ) (d : γ) :
    (List.range l.length).map (fun c => l.getD c d) = l := by
  apply List.ext_getElem (by simp)
  intro i h1 h2
  simp only [List.getElem_map, List.getElem_range]
  exact List.getD_eq_getElem l d h2

lemma map_fst_zip_eq {γ δ ε : Type} (f : γ → ε) :
    ∀ (X : List γ) (y : List δ), X.length ≤ y.length →
      (X.zip y).map (fun p => f p.1) = X.map f
  | [], _, _ => by simp
  | a :: X, [], h => by simp at h
  | a :: X, b :: y, h => by
    simp only [List.zip_cons_cons, List.map_cons, List.cons.injEq, true_and]
    exact map_fst_zip_eq f X y (by simpa using h)

lemma zip_trunc_left {γ δ : Type} :
    ∀ (l : List γ) (l' : List δ), l.zip l' = (l.take l'.length).zip l'
  | [], _ => by simp
  | a :: l, [] => by simp
  | a :: l, b :: l' => by
    simp only [List.zip_cons_cons, List.length_cons, List.take_succ_cons,
      List.cons.injEq, true_and]
    exact zip_trunc_left l l'

lemma sum_map_div {α : Type} [DivisionRing α] (l : List α) (n : α) :
    (l.map (fun x => x / n)).sum = l.sum / n := by
  induction l with
  | nil => simp
  | cons a tl ih => simp [ih, add_div]

lemma lookup_cons_key {β : Type} (c k : ℕ) (v : β) (es : List (ℕ × β)) :
    List.lookup c ((k, v) :: es) = if c = k then some v else List.lookup c es := by
  by_cases h : c = k
  · simp [List.lookup, h]
  · simp [List.lookup, h, beq_eq_false_iff_ne.mpr h]

/-! ## `mapME` / `foldlME` basic lemmas -/

lemma mapME_eq_some_map {γ δ : Type} {f : γ → Option δ} {g : γ → δ} {l : List γ}
    (h : ∀ x ∈ l, f x = some (g x)) : mapME f l = some (l.map g) := by
  induction l with
  | nil => rfl
  | cons x xs ih =>
    simp [mapME, h x (by simp), ih (fun a ha => h a (by simp [ha]))]

lemma mapME_eq_none {γ δ : Type} {f : γ → Option δ} {l : List γ} {x : γ}
    (hx : x ∈ l) (hfx : f x = none) : mapME f l = none := by
  induction l with
  | nil => cases hx
  | cons a tl ih =>
    rcases List.mem_cons.mp hx with rfl | hmem
    · simp [mapME, hfx]
    · cases h : f a with
      | none => simp [mapME, h]
      | some v => simp [mapME, h, ih hmem]

lemma mapME_length {γ δ : Type} {f : γ → Option δ} {l : List γ} {r : List δ}
    (h : mapME f l = some r) : r.length = l.length := by
  induction l generalizing r with
  | nil =>
    simp only [mapME, Option.some.injEq] at h
    subst h; rfl
  | cons a tl ih =>
    simp only [mapME, Option.bind_eq_bind, Option.bind_eq_some] at h
    obtain ⟨y, _, ys, hys, hr⟩ := h
    simp only [pure, Option.some.injEq] at hr
    simp [← hr, ih hys]

/-! ## The prior estimator: distinct keys and counts (claim C5) -/

lemma mem_distincts {c : ℕ} : ∀ {y : List ℕ}, c ∈ distincts y ↔ c ∈ y := by
  intro y
  induction y with
  | nil => simp [distincts]
  | cons a tl ih =>
    by_cases h : c = a
    · simp [distincts, h]
    · simp only [distincts, List.mem_cons, List.mem_filter, ih, decide_eq_true_eq]
      constructor
      · rintro (rfl | ⟨hm, _⟩)
        · exact Or.inl rfl
        · exact Or.inr hm
      · rintro (rfl | hm)
        · exact Or.inl rfl
        · exact Or.inr ⟨hm, h⟩

lemma nodup_distincts : ∀ (y : List ℕ), (distincts y).Nodup
  | [] => List.nodup_nil
  | a :: tl => by
    refine List.nodup_cons.mpr ⟨?_, List.Nodup.filter _ (nodup_distincts tl)⟩
    intro hmem
    have h2 := (List.mem_filter.mp hmem).2
    simp at h2

lemma length_distincts_eq_card (y : List ℕ) :
    (distincts y).length = y.toFinset.card := by
  have h1 : (distincts y).toFinset = y.toFinset := by
    ext c
    simp [List.mem_toFinset, mem_distincts]
  rw [← h1, List.toFinset_card_of_nodup (nodup_distincts y)]

lemma lookup_map_count (f : ℕ → ℕ) (c : ℕ) :
    ∀ (ks : List ℕ),
      (ks.map (fun k => (k, f k))).lookup c = if c ∈ ks then some (f c) else none
  | [] => by simp [List.lookup]
  | k :: ks => by
    rw [List.map_cons, lookup_cons_key]
    by_cases h : c = k
    · subst h; simp
    · simp only [if_neg h, List.mem_cons]
      rw [lookup_map_count f c ks]
      by_cases hm : c ∈ ks
      · simp [hm]
      · simp [hm, h]

/-- Claim C5: `_get_prior` maps each distinct label of `y` (and nothing else)
to its raw occurrence count, with no normalization or smoothing, and `fit`
stores this mapping and sets `n_class` to its number of distinct keys. -/
theorem prior_is_counts_and_n_class_is_distinct_count
    (X : List (List ℝ)) (y : List ℕ) (c : ℕ) :
    ((_get_prior y).map Prod.fst).Nodup
    ∧ (c ∈ (_get_prior y).map Prod.fst ↔ c ∈ y)
    ∧ ((_get_prior y).lookup c = if c ∈ y then some (y.count c) else none)
    ∧ (fit X y).prior = some (_get_prior y)
    ∧ (fit X y).n_class = some ((_get_prior y).length)
    ∧ (_get_prior y).length = y.toFinset.card := by
  have hkeys : (_get_prior y).map Prod.fst = distincts y := by
    rw [_get_prior, List.map_map]
    exact List.map_id' _
  refine ⟨?_, ?_, ?_, rfl, rfl, ?_⟩
  · rw [hkeys]; exact nodup_distincts y
  · rw [hkeys]; exact mem_distincts
  · rw [_get_prior, lookup_map_count]
    by_cases hm : c ∈ y
    · simp [hm, mem_distincts.mpr hm]
    · have hd : c ∉ distincts y := fun h => hm (mem_distincts.mp h)
      simp [hm, hd]
  · simp [_get_prior, length_distincts_eq_card]

/-! ## Pre-fit behaviour (claim C8) -/

/-- Counterexample to claim C8 as stated: on the freshly constructed
classifier, `predict_prob([])` and `predict([])` return an (empty) result —
the list comprehension never touches the unset attributes — rather than
failing. -/
theorem prefit_empty_input_returns_cx :
    GaussianNB.init.predict_prob [] = some []
    ∧ GaussianNB.init.predict [] (1 / 2) = some [] := by
  constructor <;> rfl

/-- Claim C8 as amended: on the freshly constructed classifier, any
`predict_prob` or `predict` call with at least one input row fails on the
first access to the unset (`None`) parameters. -/
theorem prefit_nonempty_input_fails (row : List ℝ) (rest : List (List ℝ))
    (threshold : ℝ) :
    GaussianNB.init.predict_prob (row :: rest) = none
    ∧ GaussianNB.init.predict (row :: rest) threshold = none := by
  have h : GaussianNB.init.predict_prob (row :: rest) = none := by
    simp [GaussianNB.predict_prob, mapME, GaussianNB.predictProbRow, GaussianNB.init]
  refine ⟨h, ?_⟩
  simp [GaussianNB.predict, h]

/-! ## The density evaluator (claim C4) -/

lemma get_posterior_eq_some {xij avg variance : ℝ} (h : 0 < variance) :
    _get_posterior xij avg variance = some (gaussPdf xij avg variance) := by
  have h2 : (0:ℝ) < 2 * Real.pi * variance := by positivity
  have hs : Real.sqrt (2 * Real.pi * variance) ≠ 0 :=
    ne_of_gt (Real.sqrt_pos.mpr h2)
  have hv : (2 * variance : ℝ) ≠ 0 := by positivity
  simp only [_get_posterior, sqrtE, divE, gaussPdf, if_neg (not_lt.mpr h2.le),
    if_neg hs, if_neg hv, Option.bind_eq_bind, Option.some_bind]
  norm_num

/-- Counterexample to claim C4 as stated: "var nonzero" is not enough.
At `variance = -1` (nonzero), `math.sqrt` of the negative argument
`2*pi*(-1)` raises `ValueError`, so `_get_posterior` fails instead of
returning the density formula. -/
theorem get_posterior_negative_variance_cx :
    ((-1 : ℝ) ≠ 0) ∧ _get_posterior 0 0 (-1) = none := by
  refine ⟨by norm_num, ?_⟩
  have h : (2 : ℝ) * Real.pi * (-1) < 0 := by nlinarith [Real.pi_pos]
  have hs : sqrtE (2 * Real.pi * (-1)) = none := by rw [sqrtE, if_pos h]
  simp only [_get_posterior, hs, Option.bind_eq_bind, Option.none_bind]

/-- Claim C4 as amended: for every positive variance, `_get_posterior`
returns exactly `1/sqrt(2*pi*var) * exp(-(x-avg)^2 / (2*var))`. -/
theorem get_posterior_formula (xij avg variance : ℝ) (h : 0 < variance) :
    _get_posterior xij avg variance
      = some (1 / Real.sqrt (2 * Real.pi * variance)
          * Real.exp (-(xij - avg) ^ 2 / (2 * variance))) :=
  get_posterior_eq_some h

/-- Witness for `get_posterior_formula` at `xij = 1`, `avg = 0`, `var = 1`. -/
theorem get_posterior_formula_witness :
    ((0:ℝ) < 1)
    ∧ _get_posterior 1 0 1
        = some (1 / Real.sqrt (2 * Real.pi * 1)
            * Real.exp (-((1:ℝ) - 0) ^ 2 / (2 * 1))) :=
  ⟨by norm_num, get_posterior_formula 1 0 1 (by norm_num)⟩

/-! ## Moment estimator: fold lemmas (claims C1, C9, C10) -/

section MomentLemmas

variable {α : Type} [Field α] {β : Type}

lemma bump_length (l : List α) (k : ℕ) (v : α) : (bump l k v).length = l.length :=
  List.length_set l k _

lemma getD_bump (l : List α) {k : ℕ} (hk : k < l.length) (v : α) (c : ℕ) :
    (bump l k v).getD c 0 = l.getD c 0 + (if k = c then v else 0) := by
  by_cases h : k = c
  · subst h
    rw [if_pos rfl, bump, List.getD_eq_getElem _ _ (by simpa using hk),
      List.getElem_set_self]
  · rw [if_neg h, add_zero, bump]
    by_cases hc : c < l.length
    · rw [List.getD_eq_getElem _ _ (by simpa using hc),
        List.getD_eq_getElem _ _ hc, List.getElem_set_of_ne h]
    · rw [List.getD_eq_default _ _ (by simpa using not_lt.mp hc),
        List.getD_eq_default _ _ (not_lt.mp hc)]

lemma sum_bump : ∀ (l : List α) (k : ℕ), k < l.length → ∀ (v : α),
    (bump l k v).sum = l.sum + v
  | [], k, hk, v => by simp at hk
  | a :: tl, 0, _, v => by
    simp [bump, add_assoc, add_comm, add_left_comm]
  | a :: tl, k + 1, hk, v => by
    have ih := sum_bump tl k (by simpa using hk) v
    simp only [bump, List.getD_cons_succ, List.set_cons_succ, List.sum_cons] at ih ⊢
    rw [ih, add_assoc]

lemma foldl_pair {γ δ : Type} (f : γ → β → γ) (g : δ → β → δ) :
    ∀ (ps : List β) (a : γ) (b : δ),
      (ps.foldl (fun s p => (f s.1 p, g s.2 p)) (a, b)) = (ps.foldl f a, ps.foldl g b)
  | [], _, _ => rfl
  | p :: ps, a, b => foldl_pair f g ps (f a p) (g b p)

lemma foldl_bump_length (key : β → ℕ) (val : β → α) :
    ∀ (ps : List β) (s : List α),
      (ps.foldl (fun s p => bump s (key p) (val p)) s).length = s.length
  | [], _ => rfl
  | p :: ps, s => by
    rw [List.foldl_cons, foldl_bump_length key val ps, bump_length]

lemma foldl_bump_getD (key : β → ℕ) (val : β → α) :
    ∀ (ps : List β) (s : List α) (c : ℕ), c < s.length →
      (∀ p ∈ ps, key p < s.length) →
      (ps.foldl (fun s p => bump s (key p) (val p)) s).getD c 0
        = s.getD c 0 + ((ps.filter (fun p => key p == c)).map val).sum
  | [], s, c, _, _ => by simp
  | p :: ps, s, c, hc, hkey => by
    rw [List.foldl_cons,
      foldl_bump_getD key val ps (bump s (key p) (val p)) c
        (by rw [bump_length]; exact hc)
        (fun q hq => by rw [bump_length]; exact hkey q (by simp [hq])),
      getD_bump s (hkey p (by simp)) (val p) c]
    by_cases h : key p = c
    · rw [if_pos h, List.filter_cons_of_pos (by simpa using h), List.map_cons,
        List.sum_cons, add_assoc]
    · rw [if_neg h, add_zero, List.filter_cons_of_neg (by simpa using h)]

lemma foldl_bump_sum (key : β → ℕ) (val : β → α) :
    ∀ (ps : List β) (s : List α), (∀ p ∈ ps, key p < s.length) →
      (ps.foldl (fun s p => bump s (key p) (val p)) s).sum = s.sum + (ps.map val).sum
  | [], s, _ => by simp
  | p :: ps, s, hkey => by
    rw [List.foldl_cons,
      foldl_bump_sum key val ps (bump s (key p) (val p))
        (fun q hq => by rw [bump_length]; exact hkey q (by simp [hq])),
      sum_bump s (key p) (hkey p (by simp)) (val p), List.map_cons, List.sum_cons,
      add_assoc]

/-- The loop of `_get_avg_var` is a pair of independent `bump` folds. -/
lemma featureSums_eq (X : List (List α)) (y : List ℕ) (nc j : ℕ) :
    featureSums X y nc j
      = ((X.zip y).foldl (fun s p => bump s p.2 (p.1.getD j 0)) (List.replicate nc 0),
         (X.zip y).foldl (fun s p => bump s p.2 ((p.1.getD j 0) ^ 2)) (List.replicate nc 0)) := by
  rw [featureSums]
  exact foldl_pair (fun s1 p => bump s1 p.2 (p.1.getD j 0))
    (fun s2 p => bump s2 p.2 ((p.1.getD j 0) ^ 2)) (X.zip y) _ _

lemma featureSums_fst_length (X : List (List α)) (y : List ℕ) (nc j : ℕ) :
    (featureSums X y nc j).1.length = nc := by
  rw [featureSums_eq]
  exact (foldl_bump_length (fun p : List α × ℕ => p.2) (fun p => p.1.getD j 0)
    (X.zip y) (List.replicate nc 0)).trans (List.length_replicate nc 0)

lemma featureSums_snd_length (X : List (List α)) (y : List ℕ) (nc j : ℕ) :
    (featureSums X y nc j).2.length = nc := by
  rw [featureSums_eq]
  exact (foldl_bump_length (fun p : List α × ℕ => p.2) (fun p => (p.1.getD j 0) ^ 2)
    (X.zip y) (List.replicate nc 0)).trans (List.length_replicate nc 0)

lemma labels_lt_of_mem_zip {X : List (List α)} {y : List ℕ} {nc : ℕ}
    (hlab : ∀ l ∈ y, l < nc) : ∀ p ∈ X.zip y, p.2 < nc :=
  fun p hp => hlab p.2 (List.of_mem_zip hp).2

lemma featureSums_fst_getD (X : List (List α)) (y : List ℕ) {nc : ℕ} (j : ℕ) {c : ℕ}
    (hc : c < nc) (hlab : ∀ l ∈ y, l < nc) :
    (featureSums X y nc j).1.getD c 0
      = (((X.zip y).filter (fun p => p.2 == c)).map (fun p => p.1.getD j 0)).sum := by
  rw [featureSums_eq]
  have h := foldl_bump_getD (fun p : List α × ℕ => p.2) (fun p => p.1.getD j 0)
    (X.zip y) (List.replicate nc 0) c (by simpa using hc)
    (fun p hp => by simpa using labels_lt_of_mem_zip hlab p hp)
  simpa [getD_replicate_lt (0 : α) 0 hc] using h

lemma featureSums_snd_getD (X : List (List α)) (y : List ℕ) {nc : ℕ} (j : ℕ) {c : ℕ}
    (hc : c < nc) (hlab : ∀ l ∈ y, l < nc) :
    (featureSums X y nc j).2.getD c 0
      = (((X.zip y).filter (fun p => p.2 == c)).map (fun p => (p.1.getD j 0) ^ 2)).sum := by
  rw [featureSums_eq]
  have h := foldl_bump_getD (fun p : List α × ℕ => p.2) (fun p => (p.1.getD j 0) ^ 2)
    (X.zip y) (List.replicate nc 0) c (by simpa using hc)
    (fun p hp => by simpa using labels_lt_of_mem_zip hlab p hp)
  simpa [getD_replicate_lt (0 : α) 0 hc] using h

lemma featureAvg_length (X : List (List α)) (y : List ℕ) (nc j : ℕ) :
    (featureAvg X y nc j).length = nc := by
  rw [featureAvg, List.length_map, featureSums_fst_length]

lemma featureVar_length (X : List (List α)) (y : List ℕ) (nc j : ℕ) :
    (featureVar X y nc j).length = nc := by
  rw [featureVar, List.length_map, List.length_zip, featureSums_snd_length,
    featureAvg_length, min_self]

lemma featureAvg_getD (X : List (List α)) (y : List ℕ) {nc : ℕ} (j : ℕ) {c : ℕ}
    (hc : c < nc) (hlab : ∀ l ∈ y, l < nc) :
    (featureAvg X y nc j).getD c 0
      = (((X.zip y).filter (fun p => p.2 == c)).map (fun p => p.1.getD j 0)).sum
          / (X.length : α) := by
  rw [featureAvg,
    getD_map_lt _ _ (by rw [featureSums_fst_length]; exact hc) 0 0,
    featureSums_fst_getD X y j hc hlab]

lemma featureVar_getD (X : List (List α)) (y : List ℕ) {nc : ℕ} (j : ℕ) {c : ℕ}
    (hc : c < nc) (hlab : ∀ l ∈ y, l < nc) :
    (featureVar X y nc j).getD c 0
      = (((X.zip y).filter (fun p => p.2 == c)).map (fun p => (p.1.getD j 0) ^ 2)).sum
          / (X.length : α)
        - ((((X.zip y).filter (fun p => p.2 == c)).map (fun p => p.1.getD j 0)).sum
            / (X.length : α)) ^ 2 := by
  have hzl : c < ((featureSums X y nc j).2.zip (featureAvg X y nc j)).length := by
    rw [List.length_zip, featureSums_snd_length, featureAvg_length, min_self]
    exact hc
  rw [featureVar, getD_map_lt _ _ hzl 0 ((0 : α), (0 : α))]
  rw [List.getD_eq_getElem _ _ hzl, List.getElem_zip]
  rw [← List.getD_eq_getElem _ ((0:α)) (by rw [featureSums_snd_length]; exact hc),
    ← List.getD_eq_getElem _ ((0:α)) (by rw [featureAvg_length]; exact hc)]
  rw [featureSums_snd_getD X y j hc hlab, featureAvg_getD X y j hc hlab]

lemma getAvgVar_fst_getD (X : List (List α)) (y : List ℕ) {nc j : ℕ}
    (hj : j < (X.headD []).length) :
    (_get_avg_var X y nc).1.getD j [] = featureAvg X y nc j := by
  rw [_get_avg_var]
  rw [getD_map_lt _ _ (by simpa using hj) [] 0]
  rw [List.getD_eq_getElem _ _ (by simpa using hj), List.getElem_range]

lemma getAvgVar_snd_getD (X : List (List α)) (y : List ℕ) {nc j : ℕ}
    (hj : j < (X.headD []).length) :
    (_get_avg_var X y nc).2.getD j [] = featureVar X y nc j := by
  rw [_get_avg_var]
  rw [getD_map_lt _ _ (by simpa using hj) [] 0]
  rw [List.getD_eq_getElem _ _ (by simpa using hj), List.getElem_range]

lemma getAvgVar_fst_wf (X : List (List α)) (y : List ℕ) (nc : ℕ) :
    ∀ a ∈ (_get_avg_var X y nc).1, a.length = nc := by
  intro a ha
  rw [_get_avg_var] at ha
  obtain ⟨j, _, rfl⟩ := List.mem_map.mp ha
  exact featureAvg_length X y nc j

lemma getAvgVar_snd_wf (X : List (List α)) (y : List ℕ) (nc : ℕ) :
    ∀ v ∈ (_get_avg_var X y nc).2, v.length = nc := by
  intro v hv
  rw [_get_avg_var] at hv
  obtain ⟨j, _, rfl⟩ := List.mem_map.mp hv
  exact featureVar_length X y nc j

end MomentLemmas

/-! ## Claim C1: the divide-by-total-n moment formulas -/

/-- Claim C1: for a rectangular `X` with `n` rows and valid labels,
`fit`'s moment pass computes `avg[j][c]` as the sum of column `j` over the
rows labelled `c` divided by the TOTAL row count `n`, and `var[j][c]` as the
corresponding sum of squares over `n` minus `avg[j][c]^2`. -/
theorem avg_var_divide_by_total_n (X : List (List ℚ)) (y : List ℕ) (nc j c : ℕ)
    (hX : X ≠ []) (hy : y.length = X.length)
    (hm : ∀ r ∈ X, r.length = (X.headD []).length)
    (hj : j < (X.headD []).length) (hc : c < nc) (hlab : ∀ l ∈ y, l < nc) :
    ((_get_avg_var X y nc).1.getD j []).getD c 0
      = (((X.zip y).filter (fun p => p.2 == c)).map (fun p => p.1.getD j 0)).sum
          / (X.length : ℚ)
    ∧ ((_get_avg_var X y nc).2.getD j []).getD c 0
      = (((X.zip y).filter (fun p => p.2 == c)).map (fun p => (p.1.getD j 0) ^ 2)).sum
          / (X.length : ℚ)
        - ((((X.zip y).filter (fun p => p.2 == c)).map (fun p => p.1.getD j 0)).sum
            / (X.length : ℚ)) ^ 2 := by
  constructor
  · rw [getAvgVar_fst_getD X y hj, featureAvg_getD X y j hc hlab]
  · rw [getAvgVar_snd_getD X y hj, featureVar_getD X y j hc hlab]

/-- Witness for `avg_var_divide_by_total_n` on
`X = [[1],[2],[3]]`, `y = [0,0,1]`, `nc = 2`, `j = 0`, `c = 0`. -/
theorem avg_var_divide_by_total_n_witness :
    (([[1],[2],[3]] : List (List ℚ)) ≠ []
     ∧ ([0,0,1] : List ℕ).length = ([[1],[2],[3]] : List (List ℚ)).length
     ∧ (∀ r ∈ ([[1],[2],[3]] : List (List ℚ)),
          r.length = (([[1],[2],[3]] : List (List ℚ)).headD []).length)
     ∧ 0 < (([[1],[2],[3]] : List (List ℚ)).headD []).length
     ∧ 0 < 2
     ∧ (∀ l ∈ ([0,0,1] : List ℕ), l < 2))
    ∧ (((_get_avg_var ([[1],[2],[3]] : List (List ℚ)) [0,0,1] 2).1.getD 0 []).getD 0 0
        = (((([[1],[2],[3]] : List (List ℚ)).zip
              ([0,0,1] : List ℕ)).filter (fun p => p.2 == 0)).map
            (fun p => p.1.getD 0 0)).sum / (([[1],[2],[3]] : List (List ℚ)).length : ℚ)
      ∧ ((_get_avg_var ([[1],[2],[3]] : List (List ℚ)) [0,0,1] 2).2.getD 0 []).getD 0 0
        = (((([[1],[2],[3]] : List (List ℚ)).zip
              ([0,0,1] : List ℕ)).filter (fun p => p.2 == 0)).map
            (fun p => (p.1.getD 0 0) ^ 2)).sum / (([[1],[2],[3]] : List (List ℚ)).length : ℚ)
          - (((((([[1],[2],[3]] : List (List ℚ))).zip
                ([0,0,1] : List ℕ)).filter (fun p => p.2 == 0)).map
              (fun p => p.1.getD 0 0)).sum / (([[1],[2],[3]] : List (List ℚ)).length : ℚ)) ^ 2) :=
  ⟨⟨by decide, by decide, by decide, by decide, by decide, by decide⟩,
   avg_var_divide_by_total_n [[1],[2],[3]] [0,0,1] 2 0 0 (by decide) (by decide)
     (by decide) (by decide) (by decide) (by decide)⟩

/-! ## Claim C9: per-class scaled means partition the column mean -/

/-- Claim C9: for every column `j`, the per-class entries of the fitted
`avg[j]` vector (length `n_class`) sum to the overall mean of column `j`. -/
theorem avg_entries_sum_to_column_mean (X : List (List ℚ)) (y : List ℕ)
    (nc j : ℕ) (hX : X ≠ []) (hy : y.length = X.length)
    (hj : j < (X.headD []).length) (hlab : ∀ l ∈ y, l < nc) :
    ((_get_avg_var X y nc).1.getD j []).length = nc
    ∧ ((_get_avg_var X y nc).1.getD j []).sum
        = (X.map (fun r => r.getD j 0)).sum / (X.length : ℚ) := by
  rw [getAvgVar_fst_getD X y hj]
  refine ⟨featureAvg_length X y nc j, ?_⟩
  rw [featureAvg, sum_map_div]
  congr 1
  rw [featureSums_eq]
  have h := foldl_bump_sum (fun p : List ℚ × ℕ => p.2) (fun p => p.1.getD j 0)
    (X.zip y) (List.replicate nc 0)
    (fun p hp => by simpa using labels_lt_of_mem_zip hlab p hp)
  refine h.trans ?_
  rw [List.sum_replicate, smul_zero, zero_add]
  exact congrArg List.sum (map_fst_zip_eq (fun r => r.getD j 0) X y hy.ge)

/-- Witness for `avg_entries_sum_to_column_mean` on
`X = [[2],[4]]`, `y = [0,0]`, `nc = 1`, `j = 0`. -/
theorem avg_entries_sum_to_column_mean_witness :
    (([[2],[4]] : List (List ℚ)) ≠ []
     ∧ ([0,0] : List ℕ).length = ([[2],[4]] : List (List ℚ)).length
     ∧ 0 < (([[2],[4]] : List (List ℚ)).headD []).length
     ∧ (∀ l ∈ ([0,0] : List ℕ), l < 1))
    ∧ (((_get_avg_var ([[2],[4]] : List (List ℚ)) [0,0] 1).1.getD 0 []).length = 1
      ∧ ((_get_avg_var ([[2],[4]] : List (List ℚ)) [0,0] 1).1.getD 0 []).sum
          = (([[2],[4]] : List (List ℚ)).map (fun r => r.getD 0 0)).sum
              / (([[2],[4]] : List (List ℚ)).length : ℚ)) :=
  ⟨⟨by decide, by decide, by decide, by decide⟩,
   avg_entries_sum_to_column_mean [[2],[4]] [0,0] 1 0 (by decide) (by decide)
     (by decide) (by decide)⟩

/-! ## Claim C10: fitted variances are non-negative -/

lemma sq_sum_le_length_mul_sum_sq (l : List ℚ) :
    l.sum ^ 2 ≤ (l.length : ℚ) * (l.map (fun x => x ^ 2)).sum := by
  induction l with
  | nil => simp
  | cons x tl ih =>
    rcases eq_or_ne tl [] with rfl | hne
    · norm_num
    · have hQ : (0:ℚ) ≤ (tl.map (fun x => x ^ 2)).sum :=
        List.sum_nonneg (by intro a ha; obtain ⟨b, _, rfl⟩ := List.mem_map.mp ha; positivity)
      have h1 : (1:ℚ) ≤ (tl.length : ℚ) := by
        have := List.length_pos.mpr hne
        exact_mod_cast this
      simp only [List.sum_cons, List.map_cons, List.length_cons]
      push_cast
      nlinarith [sq_nonneg ((tl.length : ℚ) * x - tl.sum), ih, hQ, h1]

/-- Claim C10: every fitted variance entry is non-negative in exact
arithmetic: by Cauchy–Schwarz the subset sum of squares over `n` dominates
the squared subset sum over `n^2`. -/
theorem variance_entries_nonneg (X : List (List ℚ)) (y : List ℕ) (nc j c : ℕ)
    (hX : X ≠ []) (hy : y.length = X.length)
    (hj : j < (X.headD []).length) (hc : c < nc) (hlab : ∀ l ∈ y, l < nc) :
    0 ≤ ((_get_avg_var X y nc).2.getD j []).getD c 0 := by
  rw [getAvgVar_snd_getD X y hj, featureVar_getD X y j hc hlab]
  set l := (((X.zip y).filter (fun p => p.2 == c)).map (fun p => p.1.getD j 0)) with hl
  have hS2 : (((X.zip y).filter (fun p => p.2 == c)).map
      (fun p => (p.1.getD j 0) ^ 2)).sum = (l.map (fun x => x ^ 2)).sum := by
    rw [hl, List.map_map]
    rfl
  rw [hS2]
  have hn : (0:ℚ) < (X.length : ℚ) := by
    have := List.length_pos.mpr hX
    exact_mod_cast this
  have hk : (l.length : ℚ) ≤ (X.length : ℚ) := by
    have h1 : l.length ≤ (X.zip y).length := by
      rw [hl, List.length_map]
      exact List.length_filter_le _ _
    have h2 : (X.zip y).length = X.length := by rw [List.length_zip, hy, min_self]
    exact_mod_cast h1.trans_eq h2
  have hQ : (0:ℚ) ≤ (l.map (fun x => x ^ 2)).sum :=
    List.sum_nonneg (fun a ha => by obtain ⟨b, _, rfl⟩ := List.mem_map.mp ha; positivity)
  have hcs := sq_sum_le_length_mul_sum_sq l
  rw [sub_nonneg, div_pow, div_le_div_iff (by positivity) hn]
  nlinarith [hcs, hn, hQ, hk, mul_le_mul_of_nonneg_left hk hQ]

/-- Witness for `variance_entries_nonneg` on
`X = [[1],[2]]`, `y = [0,1]`, `nc = 2`, `j = 0`, `c = 1`. -/
theorem variance_entries_nonneg_witness :
    (([[1],[2]] : List (List ℚ)) ≠ []
     ∧ ([0,1] : List ℕ).length = ([[1],[2]] : List (List ℚ)).length
     ∧ 0 < (([[1],[2]] : List (List ℚ)).headD []).length
     ∧ 1 < 2
     ∧ (∀ l ∈ ([0,1] : List ℕ), l < 2))
    ∧ 0 ≤ ((_get_avg_var ([[1],[2]] : List (List ℚ)) [0,1] 2).2.getD 0 []).getD 1 0 :=
  ⟨⟨by decide, by decide, by decide, by decide, by decide⟩,
   variance_entries_nonneg [[1],[2]] [0,1] 2 0 1 (by decide) (by decide) (by decide)
     (by decide) (by decide)⟩

/-! ## The joint-probability loop: success characterization (claim C2) -/

lemma list_prod_pos {l : List ℝ} (h : ∀ x ∈ l, 0 < x) : 0 < l.prod := by
  induction l with
  | nil => simp
  | cons a tl ih =>
    simpa using mul_pos (h a (by simp)) (ih (fun x hx => h x (by simp [hx])))

lemma gaussPdf_pos {x a v : ℝ} (h : 0 < v) : 0 < gaussPdf x a v := by
  rw [gaussPdf]
  positivity

lemma foldlME_jointStep_eq (trips : List (ℝ × (List ℝ × List ℝ))) :
    ∀ (probs : List ℝ),
      (∀ t ∈ trips, t.2.1.length = probs.length ∧ t.2.2.length = probs.length) →
      (∀ t ∈ trips, ∀ v ∈ t.2.2, 0 < v) →
      foldlME jointStep probs trips
        = some ((List.range probs.length).map (fun c =>
            probs.getD c 0
              * (trips.map (fun t =>
                  gaussPdf t.1 (t.2.1.getD c 0) (t.2.2.getD c 0))).prod)) := by
  induction trips with
  | nil =>
    intro probs _ _
    simp only [foldlME, List.map_nil, List.prod_nil, mul_one]
    rw [eq_range_map_getD]
  | cons t tl ih =>
    intro probs hwf hpos
    have hlen1 : t.2.1.length = probs.length := (hwf t (by simp)).1
    have hlen2 : t.2.2.length = probs.length := (hwf t (by simp)).2
    have hLlen : (probs.zip (t.2.1.zip t.2.2)).length = probs.length := by
      rw [List.length_zip, List.length_zip, hlen1, hlen2, min_self, min_self]
    have hstep : jointStep probs t
        = some ((probs.zip (t.2.1.zip t.2.2)).map
            (fun q => q.1 * gaussPdf t.1 q.2.1 q.2.2)) := by
      rw [jointStep]
      apply mapME_eq_some_map
      intro q hq
      have hv : q.2.2 ∈ t.2.2 := (List.of_mem_zip (List.of_mem_zip hq).2).2
      rw [get_posterior_eq_some (hpos t (by simp) q.2.2 hv)]
      rfl
    simp only [foldlME, hstep, Option.bind_eq_bind, Option.some_bind]
    rw [ih _
      (fun t' ht' => ⟨by rw [List.length_map, hLlen]; exact (hwf t' (by simp [ht'])).1,
        by rw [List.length_map, hLlen]; exact (hwf t' (by simp [ht'])).2⟩)
      (fun t' ht' => hpos t' (by simp [ht']))]
    congr 1
    rw [List.length_map, hLlen]
    apply List.map_congr_left
    intro c hc
    have hc' : c < probs.length := by simpa using hc
    have hgc : ((probs.zip (t.2.1.zip t.2.2)).map
        (fun q => q.1 * gaussPdf t.1 q.2.1 q.2.2)).getD c 0
        = probs.getD c 0 * gaussPdf t.1 (t.2.1.getD c 0) (t.2.2.getD c 0) := by
      rw [List.getD_eq_getElem _ _ (by rw [List.length_map, hLlen]; exact hc')]
      simp only [List.getElem_map, List.getElem_zip]
      rw [← List.getD_eq_getElem probs 0 hc',
        ← List.getD_eq_getElem t.2.1 0 (by rw [hlen1]; exact hc'),
        ← List.getD_eq_getElem t.2.2 0 (by rw [hlen2]; exact hc')]
    rw [hgc, List.map_cons, List.prod_cons, mul_assoc]

/-- If every variance actually reached by the zip is positive, then
`_predict_prob` succeeds and returns the per-class products of Gaussian
densities, each divided by their common sum. -/
lemma predict_prob_row_success (nc : ℕ) (avgs vss : List (List ℝ)) (row : List ℝ)
    (hwa : ∀ a ∈ avgs, a.length = nc) (hwv : ∀ v ∈ vss, v.length = nc)
    (hpos : ∀ t ∈ row.zip (avgs.zip vss), ∀ v ∈ t.2.2, 0 < v) :
    _predict_prob nc avgs vss row
      = some (((List.range nc).map (fun c =>
          ((row.zip (avgs.zip vss)).map (fun t =>
            gaussPdf t.1 (t.2.1.getD c 0) (t.2.2.getD c 0))).prod)).map
          (fun p => p / ((List.range nc).map (fun c =>
            ((row.zip (avgs.zip vss)).map (fun t =>
              gaussPdf t.1 (t.2.1.getD c 0) (t.2.2.getD c 0))).prod)).sum)) := by
  have hwf : ∀ t ∈ row.zip (avgs.zip vss),
      t.2.1.length = (List.replicate nc (1:ℝ)).length
      ∧ t.2.2.length = (List.replicate nc (1:ℝ)).length := by
    intro t ht
    have h2 := (List.of_mem_zip ht).2
    exact ⟨by rw [List.length_replicate]; exact hwa t.2.1 (List.of_mem_zip h2).1,
      by rw [List.length_replicate]; exact hwv t.2.2 (List.of_mem_zip h2).2⟩
  rw [_predict_prob]
  rw [foldlME_jointStep_eq (row.zip (avgs.zip vss)) (List.replicate nc 1) hwf hpos]
  simp only [List.length_replicate, Option.bind_eq_bind, Option.some_bind]
  have hprobs : (List.range nc).map (fun c =>
        (List.replicate nc (1:ℝ)).getD c 0
          * ((row.zip (avgs.zip vss)).map (fun t =>
              gaussPdf t.1 (t.2.1.getD c 0) (t.2.2.getD c 0))).prod)
      = (List.range nc).map (fun c =>
          ((row.zip (avgs.zip vss)).map (fun t =>
            gaussPdf t.1 (t.2.1.getD c 0) (t.2.2.getD c 0))).prod) := by
    apply List.map_congr_left
    intro c hc
    rw [getD_replicate_lt 1 0 (by simpa using hc), one_mul]
  rw [hprobs]
  rcases Nat.eq_zero_or_pos nc with hnc | hnc
  · subst hnc
    simp [mapME]
  · have hPpos : ∀ p ∈ (List.range nc).map (fun c =>
        ((row.zip (avgs.zip vss)).map (fun t =>
          gaussPdf t.1 (t.2.1.getD c 0) (t.2.2.getD c 0))).prod), 0 < p := by
      intro p hp
      obtain ⟨c, hcmem, rfl⟩ := List.mem_map.mp hp
      apply list_prod_pos
      intro x hx
      obtain ⟨t, ht, rfl⟩ := List.mem_map.mp hx
      have hvlen : t.2.2.length = nc :=
        hwv t.2.2 (List.of_mem_zip (List.of_mem_zip ht).2).2
      have hvm : t.2.2.getD c 0 ∈ t.2.2 :=
        getD_mem_of_lt t.2.2 (by rw [hvlen]; simpa using hcmem) 0
      exact gaussPdf_pos (hpos t ht _ hvm)
    have hPne : ((List.range nc).map (fun c =>
        ((row.zip (avgs.zip vss)).map (fun t =>
          gaussPdf t.1 (t.2.1.getD c 0) (t.2.2.getD c 0))).prod)) ≠ [] := by
      apply List.ne_nil_of_length_pos
      simpa using hnc
    have hsum : ((List.range nc).map (fun c =>
        ((row.zip (avgs.zip vss)).map (fun t =>
          gaussPdf t.1 (t.2.1.getD c 0) (t.2.2.getD c 0))).prod)).sum ≠ 0 :=
      ne_of_gt (List.sum_pos _ hPpos hPne)
    apply mapME_eq_some_map
    intro p _
    rw [divE, if_neg hsum]

/-! ## Zero variance: the prediction loop fails (claim C7) -/

lemma get_posterior_zero_var (x a : ℝ) : _get_posterior x a 0 = none := by
  have h0 : sqrtE (2 * Real.pi * 0) = some 0 := by
    rw [sqrtE, if_neg (by norm_num)]
    norm_num
  have hd : divE (1:ℝ) 0 = none := by rw [divE, if_pos rfl]
  simp only [_get_posterior, h0, hd, Option.bind_eq_bind, Option.some_bind,
    Option.none_bind]

lemma jointStep_none (probs : List ℝ) (t : ℝ × (List ℝ × List ℝ)) (c : ℕ)
    (hc1 : c < probs.length) (hc2 : c < t.2.1.length) (hc3 : c < t.2.2.length)
    (hz : t.2.2.getD c 0 = 0) :
    jointStep probs t = none := by
  rw [jointStep]
  have hcL : c < (probs.zip (t.2.1.zip t.2.2)).length := by
    rw [List.length_zip, List.length_zip]
    exact lt_min hc1 (lt_min hc2 hc3)
  apply mapME_eq_none (getD_mem_of_lt _ hcL (0, (0, 0)))
  have hq : (probs.zip (t.2.1.zip t.2.2)).getD c (0, (0, 0))
      = (probs.getD c 0, (t.2.1.getD c 0, t.2.2.getD c 0)) := by
    rw [List.getD_eq_getElem _ _ hcL]
    simp only [List.getElem_zip]
    rw [← List.getD_eq_getElem probs 0 hc1, ← List.getD_eq_getElem t.2.1 0 hc2,
      ← List.getD_eq_getElem t.2.2 0 hc3]
  rw [hq, hz, get_posterior_zero_var]
  rfl

lemma jointStep_some_length {probs probs' : List ℝ} {t : ℝ × (List ℝ × List ℝ)}
    (hl1 : t.2.1.length = probs.length) (hl2 : t.2.2.length = probs.length)
    (h : jointStep probs t = some probs') : probs'.length = probs.length := by
  rw [jointStep] at h
  rw [mapME_length h, List.length_zip, List.length_zip, hl1, hl2, min_self,
    min_self]

lemma foldlME_jointStep_none (trips : List (ℝ × (List ℝ × List ℝ))) :
    ∀ (probs : List ℝ) (j : ℕ), j < trips.length →
      (∀ t ∈ trips, t.2.1.length = probs.length ∧ t.2.2.length = probs.length) →
      (∃ c, c < probs.length ∧ (trips.getD j (0, ([], []))).2.2.getD c 0 = 0) →
      foldlME jointStep probs trips = none := by
  induction trips with
  | nil =>
    intro probs j hj _ _
    simp at hj
  | cons t tl ih =>
    intro probs j hj hwf hex
    obtain ⟨c, hc, hz⟩ := hex
    cases j with
    | zero =>
      have h0 : jointStep probs t = none := by
        refine jointStep_none probs t c hc ?_ ?_ ?_
        · rw [(hwf t (by simp)).1]; exact hc
        · rw [(hwf t (by simp)).2]; exact hc
        · simpa using hz
      simp only [foldlME, h0, Option.bind_eq_bind, Option.none_bind]
    | succ j' =>
      cases hstep : jointStep probs t with
      | none => simp only [foldlME, hstep, Option.bind_eq_bind, Option.none_bind]
      | some probs' =>
        have hlen : probs'.length = probs.length :=
          jointStep_some_length (hwf t (by simp)).1 (hwf t (by simp)).2 hstep
        simp only [foldlME, hstep, Option.bind_eq_bind, Option.some_bind]
        refine ih probs' j' (by simpa using hj)
          (fun t' ht' => ⟨by rw [hlen]; exact (hwf t' (by simp [ht'])).1,
            by rw [hlen]; exact (hwf t' (by simp [ht'])).2⟩)
          ⟨c, by rw [hlen]; exact hc, by simpa using hz⟩

/-- Claim C7 as amended: whenever some fitted variance entry `vss[j][c]`
that the prediction loop actually reaches (`j` within the row and the
fitted column count, `c < n_class`) is zero, `_predict_prob` fails with the
division-by-zero of `1 / sqrt(2*pi*0)` instead of returning a value. -/
theorem zero_variance_entry_fails (nc : ℕ) (avgs vss : List (List ℝ))
    (row : List ℝ) (j c : ℕ)
    (hwa : ∀ a ∈ avgs, a.length = nc) (hwv : ∀ v ∈ vss, v.length = nc)
    (hjr : j < row.length) (hja : j < avgs.length) (hjv : j < vss.length)
    (hc : c < nc) (hz : (vss.getD j []).getD c 0 = 0) :
    _predict_prob nc avgs vss row = none := by
  rw [_predict_prob]
  have hL : j < (row.zip (avgs.zip vss)).length := by
    rw [List.length_zip, List.length_zip]
    exact lt_min hjr (lt_min hja hjv)
  have htrip : (row.zip (avgs.zip vss)).getD j (0, ([], []))
      = (row.getD j 0, (avgs.getD j [], vss.getD j [])) := by
    rw [List.getD_eq_getElem _ _ hL]
    simp only [List.getElem_zip]
    rw [← List.getD_eq_getElem row 0 hjr, ← List.getD_eq_getElem avgs [] hja,
      ← List.getD_eq_getElem vss [] hjv]
  have hfail : foldlME jointStep (List.replicate nc 1) (row.zip (avgs.zip vss))
      = none := by
    refine foldlME_jointStep_none _ _ j hL ?_ ?_
    · intro t ht
      have h2 := (List.of_mem_zip ht).2
      exact ⟨by rw [List.length_replicate]; exact hwa t.2.1 (List.of_mem_zip h2).1,
        by rw [List.length_replicate]; exact hwv t.2.2 (List.of_mem_zip h2).2⟩
    · refine ⟨c, by simpa using hc, ?_⟩
      rw [htrip]
      exact hz
  simp only [hfail, Option.bind_eq_bind, Option.none_bind]

/-- Witness for `zero_variance_entry_fails` at
`nc = 1`, `avgs = [[0]]`, `vss = [[0]]`, `row = [0]`, `j = 0`, `c = 0`. -/
theorem zero_variance_entry_fails_witness :
    ((∀ a ∈ ([[0]] : List (List ℝ)), a.length = 1)
     ∧ (∀ v ∈ ([[0]] : List (List ℝ)), v.length = 1)
     ∧ 0 < ([0] : List ℝ).length
     ∧ 0 < ([[0]] : List (List ℝ)).length
     ∧ 0 < 1
     ∧ (([[0]] : List (List ℝ)).getD 0 []).getD 0 0 = 0)
    ∧ _predict_prob 1 [[0]] [[0]] [0] = none := by
  have h1 : ∀ a ∈ ([[0]] : List (List ℝ)), a.length = 1 := by simp
  have h2 : ∀ v ∈ ([[0]] : List (List ℝ)), v.length = 1 := by simp
  have h3 : (([[0]] : List (List ℝ)).getD 0 []).getD 0 0 = 0 := by simp
  exact ⟨⟨h1, h2, by simp, by simp, by simp, h3⟩,
    zero_variance_entry_fails 1 [[0]] [[0]] [0] 0 0 h1 h2 (by simp) (by simp)
      (by simp) (by simp) h3⟩

/-- Claim C2: `_predict_prob` starts from the all-ones accumulator of
length `n_class`, multiplies each class entry by the Gaussian density of
each (reached) feature value under that class's fitted mean and variance,
then divides every entry by the sum of the entries.  The stored prior is
never multiplied in: the method's result is unchanged under replacing the
`prior` field by anything at all. -/
theorem predict_prob_is_normalized_likelihood_product
    (nc : ℕ) (avgs vss : List (List ℝ)) (row : List ℝ)
    (p₁ p₂ : Option (List (ℕ × ℕ)))
    (hwa : ∀ a ∈ avgs, a.length = nc) (hwv : ∀ v ∈ vss, v.length = nc)
    (hpos : ∀ t ∈ row.zip (avgs.zip vss), ∀ v ∈ t.2.2, 0 < v) :
    _predict_prob nc avgs vss row
      = some (((List.range nc).map (fun c =>
          ((row.zip (avgs.zip vss)).map (fun t =>
            gaussPdf t.1 (t.2.1.getD c 0) (t.2.2.getD c 0))).prod)).map
          (fun p => p / ((List.range nc).map (fun c =>
            ((row.zip (avgs.zip vss)).map (fun t =>
              gaussPdf t.1 (t.2.1.getD c 0) (t.2.2.getD c 0))).prod)).sum))
    ∧ GaussianNB.predictProbRow ⟨p₁, some avgs, some vss, some nc⟩ row
        = GaussianNB.predictProbRow ⟨p₂, some avgs, some vss, some nc⟩ row :=
  ⟨predict_prob_row_success nc avgs vss row hwa hwv hpos, rfl⟩

/-- Witness for `predict_prob_is_normalized_likelihood_product` at
`nc = 1`, `avgs = [[0]]`, `vss = [[1]]`, `row = [0]`. -/
theorem predict_prob_is_normalized_likelihood_product_witness :
    ((∀ a ∈ ([[0]] : List (List ℝ)), a.length = 1)
     ∧ (∀ v ∈ ([[1]] : List (List ℝ)), v.length = 1)
     ∧ (∀ t ∈ ([0] : List ℝ).zip (([[0]] : List (List ℝ)).zip ([[1]] : List (List ℝ))),
          ∀ v ∈ t.2.2, 0 < v))
    ∧ (_predict_prob 1 [[0]] [[1]] [0]
        = some (((List.range 1).map (fun c =>
            ((([0] : List ℝ).zip (([[0]] : List (List ℝ)).zip ([[1]] : List (List ℝ)))).map (fun t =>
              gaussPdf t.1 (t.2.1.getD c 0) (t.2.2.getD c 0))).prod)).map
            (fun p => p / ((List.range 1).map (fun c =>
              ((([0] : List ℝ).zip (([[0]] : List (List ℝ)).zip ([[1]] : List (List ℝ)))).map (fun t =>
                gaussPdf t.1 (t.2.1.getD c 0) (t.2.2.getD c 0))).prod)).sum))
      ∧ GaussianNB.predictProbRow ⟨none, some [[0]], some [[1]], some 1⟩ [0]
          = GaussianNB.predictProbRow ⟨some [], some [[0]], some [[1]], some 1⟩ [0]) := by
  have h1 : ∀ a ∈ ([[0]] : List (List ℝ)), a.length = 1 := by simp
  have h2 : ∀ v ∈ ([[1]] : List (List ℝ)), v.length = 1 := by simp
  have h3 : ∀ t ∈ ([0] : List ℝ).zip (([[0]] : List (List ℝ)).zip ([[1]] : List (List ℝ))),
      ∀ v ∈ t.2.2, 0 < v := by
    intro t ht v hv
    simp only [List.zip_cons_cons, List.zip_nil_left, List.zip_nil_right,
      List.mem_singleton] at ht
    subst ht
    simp only [List.mem_singleton] at hv
    subst hv
    norm_num
  exact ⟨⟨h1, h2, h3⟩,
    predict_prob_is_normalized_likelihood_product 1 [[0]] [[1]] [0] none (some [])
      h1 h2 h3⟩

/-! ## Argmax via Python `max(enumerate(...), key=...)` (claim C3) -/

lemma fold_max_spec (ps : List ℝ) :
    ∀ (k : ℕ) (b : ℕ × ℝ),
      b.2 ≤ ((List.enumFrom k ps).foldl (fun b q => if b.2 < q.2 then q else b) b).2
      ∧ (∀ i, i < ps.length →
          ps.getD i 0
            ≤ ((List.enumFrom k ps).foldl (fun b q => if b.2 < q.2 then q else b) b).2)
      ∧ ((List.enumFrom k ps).foldl (fun b q => if b.2 < q.2 then q else b) b = b
         ∨ ∃ j, j < ps.length
             ∧ (List.enumFrom k ps).foldl (fun b q => if b.2 < q.2 then q else b) b
                 = (k + j, ps.getD j 0)
             ∧ b.2 < ps.getD j 0
             ∧ ∀ i, i < j → ps.getD i 0 < ps.getD j 0) := by
  induction ps with
  | nil =>
    intro k b
    exact ⟨le_refl _, by simp, Or.inl rfl⟩
  | cons v tl ih =>
    intro k b
    simp only [List.enumFrom, List.foldl_cons]
    by_cases hbv : b.2 < v
    · rw [if_pos hbv]
      obtain ⟨h1, h2, h3⟩ := ih (k + 1) (k, v)
      refine ⟨le_trans (le_of_lt hbv) h1, ?_, ?_⟩
      · intro i hi
        cases i with
        | zero => simpa using h1
        | succ i' => simpa using h2 i' (by simpa using hi)
      · rcases h3 with heq | ⟨j, hj, heq, hgt, hlt⟩
        · refine Or.inr ⟨0, by simp, ?_, by simpa using hbv,
            fun i hi => absurd hi (Nat.not_lt_zero i)⟩
          rw [heq]
          simp
        · refine Or.inr ⟨j + 1, by simpa using hj, ?_, ?_, ?_⟩
          · rw [heq]
            simp only [List.getD_cons_succ, Prod.mk.injEq]
            exact ⟨by omega, trivial⟩
          · have : b.2 < tl.getD j 0 := lt_trans hbv (by simpa using hgt)
            simpa using this
          · intro i hi
            cases i with
            | zero => simpa using hgt
            | succ i' => simpa using hlt i' (by omega)
    · rw [if_neg hbv]
      push_neg at hbv
      obtain ⟨h1, h2, h3⟩ := ih (k + 1) b
      refine ⟨h1, ?_, ?_⟩
      · intro i hi
        cases i with
        | zero => simpa using le_trans hbv h1
        | succ i' => simpa using h2 i' (by simpa using hi)
      · rcases h3 with heq | ⟨j, hj, heq, hgt, hlt⟩
        · exact Or.inl heq
        · refine Or.inr ⟨j + 1, by simpa using hj, ?_, ?_, ?_⟩
          · rw [heq]
            simp only [List.getD_cons_succ, Prod.mk.injEq]
            exact ⟨by omega, trivial⟩
          · simpa using hgt
          · intro i hi
            cases i with
            | zero => simpa using lt_of_le_of_lt hbv (by simpa using hgt)
            | succ i' => simpa using hlt i' (by omega)

/-- For a non-empty posterior row, `max(enumerate(ps), key=...)` picks the
index of the maximum, with ties broken by the lowest index. -/
lemma maxByVal_enum_spec (ps : List ℝ) (hne : ps ≠ []) :
    argmaxIdx ps < ps.length
    ∧ (maxByVal ps.enum).map Prod.fst = some (argmaxIdx ps)
    ∧ (∀ i, i < ps.length → ps.getD i 0 ≤ ps.getD (argmaxIdx ps) 0)
    ∧ (∀ i, i < argmaxIdx ps → ps.getD i 0 < ps.getD (argmaxIdx ps) 0) := by
  obtain ⟨p, rest, rfl⟩ := List.exists_cons_of_ne_nil hne
  obtain ⟨h1, h2, h3⟩ := fold_max_spec rest 1 (0, p)
  have hmax : maxByVal (p :: rest).enum
      = some ((List.enumFrom 1 rest).foldl
          (fun b q => if b.2 < q.2 then q else b) (0, p)) := rfl
  have hidx : argmaxIdx (p :: rest)
      = ((List.enumFrom 1 rest).foldl
          (fun b q => if b.2 < q.2 then q else b) (0, p)).1 := by
    rw [argmaxIdx, hmax]
    rfl
  have hsome : (maxByVal (p :: rest).enum).map Prod.fst
      = some (argmaxIdx (p :: rest)) := by
    rw [hmax, hidx]
    rfl
  rcases h3 with heq | ⟨j, hj, heq, hgt, hlt⟩
  · have hidx0 : argmaxIdx (p :: rest) = 0 := by rw [hidx, heq]
    refine ⟨by simp [hidx0], hsome, ?_, ?_⟩
    · intro i hi
      rw [hidx0]
      cases i with
      | zero => simp
      | succ i' =>
        have := h2 i' (by simpa using hi)
        rw [heq] at this
        simpa using this
    · intro i hi
      rw [hidx0] at hi
      exact absurd hi (Nat.not_lt_zero i)
  · have hidxj : argmaxIdx (p :: rest) = j + 1 := by
      rw [hidx, heq]
      simp [Nat.add_comm]
    have hval : (p :: rest).getD (j + 1) 0 = rest.getD j 0 := by simp
    refine ⟨by rw [hidxj]; simpa using hj, hsome, ?_, ?_⟩
    · intro i hi
      rw [hidxj, hval]
      cases i with
      | zero => simpa using le_of_lt hgt
      | succ i' =>
        have := h2 i' (by simpa using hi)
        rw [heq] at this
        simpa using this
    · intro i hi
      rw [hidxj] at hi
      rw [hidxj, hval]
      cases i with
      | zero => simpa using hgt
      | succ i' => simpa using hlt i' (by omega)

/-- Claim C3: `predict` returns, per row, the index of the maximum entry of
that row's `predict_prob` output, ties broken by the lowest class index;
the `threshold` argument has no effect on the result. -/
theorem predict_is_first_argmax_threshold_unused (M : GaussianNB)
    (X : List (List ℝ)) (t t' : ℝ) (PS : List (List ℝ))
    (hP : M.predict_prob X = some PS) (hne : ∀ ps ∈ PS, ps ≠ []) :
    M.predict X t = M.predict X t'
    ∧ M.predict X t = some (PS.map argmaxIdx)
    ∧ ∀ r, r < PS.length →
        argmaxIdx (PS.getD r []) < (PS.getD r []).length
        ∧ (∀ i, i < (PS.getD r []).length →
            (PS.getD r []).getD i 0 ≤ (PS.getD r []).getD (argmaxIdx (PS.getD r [])) 0)
        ∧ (∀ i, i < argmaxIdx (PS.getD r []) →
            (PS.getD r []).getD i 0 < (PS.getD r []).getD (argmaxIdx (PS.getD r [])) 0) := by
  have hpred : M.predict X t = some (PS.map argmaxIdx) := by
    rw [GaussianNB.predict, hP]
    simp only [Option.bind_eq_bind, Option.some_bind]
    exact mapME_eq_some_map
      (fun ps hps => (maxByVal_enum_spec ps (hne ps hps)).2.1)
  refine ⟨rfl, hpred, ?_⟩
  intro r hr
  have hps : PS.getD r [] ∈ PS := getD_mem_of_lt PS hr []
  obtain ⟨ha, _, hmax, htie⟩ := maxByVal_enum_spec (PS.getD r []) (hne _ hps)
  exact ⟨ha, hmax, htie⟩

/-- Witness for `predict_is_first_argmax_threshold_unused` on the model
`⟨none, some [], some [], some 1⟩` and the single empty row. -/
theorem predict_is_first_argmax_threshold_unused_witness :
    ((GaussianNB.predict_prob ⟨none, some [], some [], some 1⟩ [[]]
        = some [[1]])
     ∧ (∀ ps ∈ ([[1]] : List (List ℝ)), ps ≠ []))
    ∧ (GaussianNB.predict ⟨none, some [], some [], some 1⟩ [[]] 0
        = GaussianNB.predict ⟨none, some [], some [], some 1⟩ [[]] 1
      ∧ GaussianNB.predict ⟨none, some [], some [], some 1⟩ [[]] 0
          = some (([[1]] : List (List ℝ)).map argmaxIdx)
      ∧ ∀ r, r < ([[1]] : List (List ℝ)).length →
          argmaxIdx (([[1]] : List (List ℝ)).getD r [])
              < (([[1]] : List (List ℝ)).getD r []).length
          ∧ (∀ i, i < (([[1]] : List (List ℝ)).getD r []).length →
              (([[1]] : List (List ℝ)).getD r []).getD i 0
                ≤ (([[1]] : List (List ℝ)).getD r []).getD
                    (argmaxIdx (([[1]] : List (List ℝ)).getD r [])) 0)
          ∧ (∀ i, i < argmaxIdx (([[1]] : List (List ℝ)).getD r []) →
              (([[1]] : List (List ℝ)).getD r []).getD i 0
                < (([[1]] : List (List ℝ)).getD r []).getD
                    (argmaxIdx (([[1]] : List (List ℝ)).getD r [])) 0)) := by
  have hP : GaussianNB.predict_prob ⟨none, some [], some [], some 1⟩ [[]]
      = some [[1]] := by
    norm_num [GaussianNB.predict_prob, GaussianNB.predictProbRow, _predict_prob,
      mapME, foldlME, divE]
  have hne : ∀ ps ∈ ([[1]] : List (List ℝ)), ps ≠ [] := by simp
  exact ⟨⟨hP, hne⟩,
    predict_is_first_argmax_threshold_unused ⟨none, some [], some [], some 1⟩
      [[]] 0 1 [[1]] hP hne⟩

/-! ## Column-count mismatch: silent zip truncation (claim C6) -/

/-- Counterexample to claim C6 as stated: fit sees `m = 2` columns, yet a
`predict_prob` call on a 1-column row does NOT fail — `zip` silently
truncates and a result is returned. -/
theorem mismatched_width_returns_result_cx :
    (fit [[1, 1], [3, 3]] [0, 1]).avgs = some [[1 / 2, 3 / 2], [1 / 2, 3 / 2]]
    ∧ ([(0 : ℝ)]).length = 1
    ∧ (GaussianNB.predict_prob (fit [[1, 1], [3, 3]] [0, 1]) [[0]]).isSome
        = true := by
  have hfit : fit [[1, 1], [3, 3]] [0, 1]
      = ⟨some (_get_prior [0, 1]),
         some (_get_avg_var ([[1, 1], [3, 3]] : List (List ℝ)) [0, 1] 2).1,
         some (_get_avg_var ([[1, 1], [3, 3]] : List (List ℝ)) [0, 1] 2).2,
         some 2⟩ := rfl
  have hAval : (_get_avg_var ([[1, 1], [3, 3]] : List (List ℝ)) [0, 1] 2).1
      = [[1 / 2, 3 / 2], [1 / 2, 3 / 2]] := by
    norm_num [_get_avg_var, featureAvg, featureSums, bump, List.range_succ,
      List.replicate]
  have hVval : (_get_avg_var ([[1, 1], [3, 3]] : List (List ℝ)) [0, 1] 2).2
      = [[1 / 4, 9 / 4], [1 / 4, 9 / 4]] := by
    norm_num [_get_avg_var, featureVar, featureAvg, featureSums, bump,
      List.range_succ, List.replicate]
  have hpos : ∀ t ∈ ([0] : List ℝ).zip
      ((_get_avg_var ([[1, 1], [3, 3]] : List (List ℝ)) [0, 1] 2).1.zip
        (_get_avg_var ([[1, 1], [3, 3]] : List (List ℝ)) [0, 1] 2).2),
      ∀ v ∈ t.2.2, 0 < v := by
    rw [hAval, hVval]
    intro t ht
    simp only [List.zip_cons_cons, List.zip_nil_left, List.zip_nil_right,
      List.mem_singleton] at ht
    subst ht
    intro v hv
    simp only [List.mem_cons, List.mem_singleton, List.not_mem_nil, or_false] at hv
    rcases hv with rfl | rfl <;> norm_num
  have hsucc := predict_prob_row_success 2
    (_get_avg_var ([[1, 1], [3, 3]] : List (List ℝ)) [0, 1] 2).1
    (_get_avg_var ([[1, 1], [3, 3]] : List (List ℝ)) [0, 1] 2).2 [0]
    (getAvgVar_fst_wf _ _ _) (getAvgVar_snd_wf _ _ _) hpos
  refine ⟨by rw [hfit]; simpa using hAval, rfl, ?_⟩
  simp only [GaussianNB.predict_prob, mapME]
  rw [hfit]
  simp only [GaussianNB.predictProbRow, Option.bind_eq_bind, Option.some_bind]
  rw [hsucc]
  rfl

/-- Claim C6 as amended: a `predict_prob` input row whose column count
differs from the fitted `m` is not rejected: the `zip` silently truncates it
to the first `min(len(row), m)` features, so the call behaves exactly as on
the truncated row (no shape error is ever raised by the zip logic). -/
theorem predict_prob_zip_truncates (nc : ℕ) (avgs vss : List (List ℝ))
    (row : List ℝ) :
    _predict_prob nc avgs vss row
      = _predict_prob nc avgs vss (row.take ((avgs.zip vss).length)) := by
  simp only [_predict_prob]
  rw [zip_trunc_left row (avgs.zip vss)]

/-! ## Claim C7 counterexample: constant-within-class column, variance ≠ 0 -/

/-- Counterexample to claim C7 as stated: in `X = [[5],[5],[0],[1]]`,
`y = [0,0,1,1]` the single feature column is constant (`= 5`) on class `0`,
yet because sums are divided by the TOTAL row count the fitted variance is
`50/4 - (10/4)^2 = 25/4 ≠ 0`, and `predict_prob` on `[1]` succeeds instead
of failing with a division by zero. -/
theorem constant_class_column_no_failure_cx :
    ((([[5], [5], [0], [1]] : List (List ℝ)).zip [0, 0, 1, 1]).filter
        (fun p => p.2 == 0)).map (fun p => p.1.getD 0 0) = [5, 5]
    ∧ (fit [[5], [5], [0], [1]] [0, 0, 1, 1]).variances
        = some [[25 / 4, 3 / 16]]
    ∧ (GaussianNB.predict_prob (fit [[5], [5], [0], [1]] [0, 0, 1, 1])
        [[1]]).isSome = true := by
  have hfit : fit [[5], [5], [0], [1]] [0, 0, 1, 1]
      = ⟨some (_get_prior [0, 0, 1, 1]),
         some (_get_avg_var ([[5], [5], [0], [1]] : List (List ℝ)) [0, 0, 1, 1] 2).1,
         some (_get_avg_var ([[5], [5], [0], [1]] : List (List ℝ)) [0, 0, 1, 1] 2).2,
         some 2⟩ := rfl
  have hAval : (_get_avg_var ([[5], [5], [0], [1]] : List (List ℝ)) [0, 0, 1, 1] 2).1
      = [[5 / 2, 1 / 4]] := by
    norm_num [_get_avg_var, featureAvg, featureSums, bump, List.range_succ,
      List.replicate]
  have hVval : (_get_avg_var ([[5], [5], [0], [1]] : List (List ℝ)) [0, 0, 1, 1] 2).2
      = [[25 / 4, 3 / 16]] := by
    norm_num [_get_avg_var, featureVar, featureAvg, featureSums, bump,
      List.range_succ, List.replicate]
  have hpos : ∀ t ∈ ([1] : List ℝ).zip
      ((_get_avg_var ([[5], [5], [0], [1]] : List (List ℝ)) [0, 0, 1, 1] 2).1.zip
        (_get_avg_var ([[5], [5], [0], [1]] : List (List ℝ)) [0, 0, 1, 1] 2).2),
      ∀ v ∈ t.2.2, 0 < v := by
    rw [hAval, hVval]
    intro t ht
    simp only [List.zip_cons_cons, List.zip_nil_left, List.zip_nil_right,
      List.mem_singleton] at ht
    subst ht
    intro v hv
    simp only [List.mem_cons, List.mem_singleton, List.not_mem_nil, or_false] at hv
    rcases hv with rfl | rfl <;> norm_num
  have hsucc := predict_prob_row_success 2
    (_get_avg_var ([[5], [5], [0], [1]] : List (List ℝ)) [0, 0, 1, 1] 2).1
    (_get_avg_var ([[5], [5], [0], [1]] : List (List ℝ)) [0, 0, 1, 1] 2).2 [1]
    (getAvgVar_fst_wf _ _ _) (getAvgVar_snd_wf _ _ _) hpos
  refine ⟨by norm_num [List.filter_cons], by rw [hfit]; simpa using hVval, ?_⟩
  simp only [GaussianNB.predict_prob, mapME]
  rw [hfit]
  simp only [GaussianNB.predictProbRow, Option.bind_eq_bind, Option.some_bind]
  rw [hsucc]
  rfl

end GaussianNBSpec
